import Mathlib

/-!
Shallow embedding of the branch-consistency reconciliation pass
`pruneMemoriesForBranch` from `src/utils/data.js` of the OpenVault
extension, together with proofs of the specified properties.

The JavaScript store is a loosely-typed nested object; optional or
possibly-non-numeric fields are embedded as `Option` values (a JS field
that is absent, or fails the code's `typeof ... === 'number'` /
`Array.isArray` guard, is `none`).  Message indices are embedded as `Int`
and the transcript (chat) length as `Nat`, matching `chat.length`.
-/

/-- A memory entry: `{ id, summary, message_ids }`.  The code reads
`memory.message_ids || []`, so the field may be absent (`none`). -/
structure Memory where
  id : String
  summary : String
  message_ids : Option (List Int)
deriving DecidableEq, Repr

/-- The `emotion_from_messages` range `{min, max}`. -/
structure EmotionRange where
  min : Int
  max : Int
deriving DecidableEq, Repr

/-- A character state.  `known_events` is `none` when the field is absent
or not an array (the code guards with `Array.isArray`). -/
structure CharacterState where
  known_events : Option (List String)
  emotion_from_messages : Option EmotionRange
deriving DecidableEq, Repr

/-- One entry of a relationship's `history`; `message_id` is `none` when
absent or non-numeric; `note` stands for the entry's other fields. -/
structure HistoryEntry where
  message_id : Option Int
  note : String
deriving DecidableEq, Repr

/-- A relationship: `{ last_updated_message_id, history }`. -/
structure Relationship where
  last_updated_message_id : Option Int
  history : Option (List HistoryEntry)
deriving DecidableEq, Repr

/-- The per-chat OpenVault store: memories, character states keyed by
name, relationships keyed by an opaque key, and the
`last_processed_message_id` cursor. -/
@[ext]
structure Store where
  memories : List Memory
  characters : List (String × CharacterState)
  relationships : List (String × Relationship)
  lastProcessed : Option Int
deriving DecidableEq, Repr

/-- The report returned by `pruneMemoriesForBranch`. -/
structure PruneReport where
  prunedMemories : Nat
  prunedCharacterEvents : Nat
  prunedRelationships : Nat
deriving DecidableEq, Repr

/-- `messageIds.some(id => id >= chatLength)`: a memory is invalid iff any
of its message ids is `>=` the chat length (absent `message_ids` is `[]`). -/
def memoryInvalid (L : Nat) (m : Memory) : Bool :=
  (m.message_ids.getD []).any (fun id => decide ((L : Int) ≤ id))

/-- Ids of the memories that get pruned (the code's `prunedMemoryIds` set;
a list with the same membership). -/
def prunedIdsOf (L : Nat) (mems : List Memory) : List String :=
  (mems.filter (memoryInvalid L)).map Memory.id

/-- `state.known_events.filter(eventId => !prunedMemoryIds.has(eventId))`
together with the removed count accumulated into `prunedCharacterEvents`;
skipped (count 0) when the field is absent / not an array. -/
def cleanKnownEvents (prunedIds : List String) :
    Option (List String) → Option (List String) × Nat
  | none => (none, 0)
  | some evs =>
      let kept := evs.filter (fun e => decide (e ∉ prunedIds))
      (some kept, evs.length - kept.length)

/-- The emotion-range rule: when `max >= chatLength`, delete the field if
`min >= chatLength` too, else clamp `max` to `chatLength - 1`. -/
def cleanEmotion (L : Nat) : Option EmotionRange → Option EmotionRange
  | none => none
  | some r =>
      if (L : Int) ≤ r.max then
        if (L : Int) ≤ r.min then none
        else some { r with max := (L : Int) - 1 }
      else some r

/-- One character state's cleanup (known events filter + emotion rule),
returning the new state and the number of removed known events. -/
def cleanCharacter (L : Nat) (prunedIds : List String) (st : CharacterState) :
    CharacterState × Nat :=
  let ke := cleanKnownEvents prunedIds st.known_events
  ({ known_events := ke.1,
     emotion_from_messages := cleanEmotion L st.emotion_from_messages }, ke.2)

/-- `chatLength > 0 ? chatLength - 1 : -1`. -/
def resetCursor (L : Nat) : Int :=
  if 0 < L then (L : Int) - 1 else -1

/-- Reset of `last_updated_message_id` when numeric and `>= chatLength`;
the second component is the increment to `prunedRelationships`. -/
def cleanLastUpdated (L : Nat) : Option Int → Option Int × Nat
  | none => (none, 0)
  | some n => if (L : Int) ≤ n then (some (resetCursor L), 1) else (some n, 0)

/-- `typeof h.message_id !== 'number' || h.message_id < chatLength`. -/
def keepHistoryEntry (L : Nat) (h : HistoryEntry) : Bool :=
  match h.message_id with
  | none => true
  | some mid => decide (mid < (L : Int))

/-- History filter; skipped when the field is absent / not an array. -/
def cleanHistory (L : Nat) : Option (List HistoryEntry) → Option (List HistoryEntry)
  | none => none
  | some hs => some (hs.filter (keepHistoryEntry L))

/-- One relationship's cleanup, returning the new relationship and the
increment (0 or 1) to `prunedRelationships`. -/
def cleanRelationship (L : Nat) (r : Relationship) : Relationship × Nat :=
  let lu := cleanLastUpdated L r.last_updated_message_id
  ({ last_updated_message_id := lu.1, history := cleanHistory L r.history }, lu.2)

/-- Reset of `last_processed_message_id` when numeric and `>= chatLength`. -/
def cleanLastProcessed (L : Nat) : Option Int → Option Int
  | none => none
  | some n => if (L : Int) ≤ n then some (resetCursor L) else some n

/-- The body of `pruneMemoriesForBranch` after the short-circuit check:
scan memories, replace the memories array when anything was pruned,
clean character states, relationships and the cursor, and report counts. -/
def pruneCore (L : Nat) (data : Store) : Store × PruneReport :=
  let invalid := data.memories.filter (memoryInvalid L)
  let validMemories := data.memories.filter (fun m => !(memoryInvalid L m))
  let ids := prunedIdsOf L data.memories
  let prunedMemories := invalid.length
  let newMemories := if 0 < prunedMemories then validMemories else data.memories
  let charPairs := data.characters.map (fun p => (p.1, cleanCharacter L ids p.2))
  let relPairs := data.relationships.map (fun p => (p.1, cleanRelationship L p.2))
  ({ memories := newMemories,
     characters := charPairs.map (fun p => (p.1, p.2.1)),
     relationships := relPairs.map (fun p => (p.1, p.2.1)),
     lastProcessed := cleanLastProcessed L data.lastProcessed },
   { prunedMemories := prunedMemories,
     prunedCharacterEvents := (charPairs.map (fun p => p.2.2)).sum,
     prunedRelationships := (relPairs.map (fun p => p.2.2)).sum })

/-- `pruneMemoriesForBranch(store, chatLength)`: the early return when the
chat is empty or the store has no memories, else the full cleanup pass. -/
def pruneMemoriesForBranch (L : Nat) (data : Store) : Store × PruneReport :=
  if L = 0 ∨ data.memories = [] then
    (data, { prunedMemories := 0, prunedCharacterEvents := 0, prunedRelationships := 0 })
  else
    pruneCore L data

/-! ## Basic unfolding lemmas -/

theorem prune_shortcircuit {L : Nat} {S : Store} (h : L = 0 ∨ S.memories = []) :
    pruneMemoriesForBranch L S
      = (S, { prunedMemories := 0, prunedCharacterEvents := 0, prunedRelationships := 0 }) := by
  simp [pruneMemoriesForBranch, h]

theorem prune_main {L : Nat} {S : Store} (h1 : L ≠ 0) (h2 : S.memories ≠ []) :
    pruneMemoriesForBranch L S = pruneCore L S := by
  simp [pruneMemoriesForBranch, h1, h2]

theorem pruneCore_memories (L : Nat) (S : Store) :
    (pruneCore L S).1.memories
      = if 0 < (S.memories.filter (memoryInvalid L)).length then
          S.memories.filter (fun m => !(memoryInvalid L m))
        else S.memories := rfl

theorem pruneCore_characters (L : Nat) (S : Store) :
    (pruneCore L S).1.characters
      = S.characters.map (fun p => (p.1, (cleanCharacter L (prunedIdsOf L S.memories) p.2).1)) := by
  simp [pruneCore, List.map_map, Function.comp]

theorem pruneCore_relationships (L : Nat) (S : Store) :
    (pruneCore L S).1.relationships
      = S.relationships.map (fun p => (p.1, (cleanRelationship L p.2).1)) := by
  simp [pruneCore, List.map_map, Function.comp]

theorem pruneCore_lastProcessed (L : Nat) (S : Store) :
    (pruneCore L S).1.lastProcessed = cleanLastProcessed L S.lastProcessed := rfl

theorem pruneCore_prunedMemories (L : Nat) (S : Store) :
    (pruneCore L S).2.prunedMemories = (S.memories.filter (memoryInvalid L)).length := rfl

theorem pruneCore_prunedCharacterEvents (L : Nat) (S : Store) :
    (pruneCore L S).2.prunedCharacterEvents
      = (S.characters.map (fun p => (cleanCharacter L (prunedIdsOf L S.memories) p.2).2)).sum := by
  simp [pruneCore, List.map_map, Function.comp_def]

theorem pruneCore_prunedRelationships (L : Nat) (S : Store) :
    (pruneCore L S).2.prunedRelationships
      = (S.relationships.map (fun p => (cleanRelationship L p.2).2)).sum := by
  simp [pruneCore, List.map_map, Function.comp_def]

/-! ## Facts about the individual cleanup steps -/

theorem natSum_eq_zero {l : List Nat} : l.sum = 0 ↔ ∀ x ∈ l, x = 0 := by
  induction l with
  | nil => simp
  | cons a t ih => simp [ih, Nat.add_eq_zero]

theorem mem_pruneCore_valid {L : Nat} {S : Store} {m : Memory}
    (hm : m ∈ (pruneCore L S).1.memories) : memoryInvalid L m = false := by
  rw [pruneCore_memories] at hm
  by_cases h : 0 < (S.memories.filter (memoryInvalid L)).length
  · rw [if_pos h] at hm
    simpa using (List.mem_filter.mp hm).2
  · rw [if_neg h] at hm
    have h0 : S.memories.filter (memoryInvalid L) = [] :=
      List.length_eq_zero.mp (Nat.eq_zero_of_not_pos h)
    simpa using List.filter_eq_nil_iff.mp h0 m hm

theorem cleanKnownEvents_nil (o : Option (List String)) : cleanKnownEvents [] o = (o, 0) := by
  cases o with
  | none => rfl
  | some evs => simp [cleanKnownEvents]

theorem cleanEmotion_max_lt {L : Nat} {o : Option EmotionRange} {r : EmotionRange}
    (h : cleanEmotion L o = some r) : r.max < (L : Int) := by
  cases o with
  | none => simp [cleanEmotion] at h
  | some s =>
    simp only [cleanEmotion] at h
    split_ifs at h with h1 h2
    · injection h with h
      subst h
      show (L : Int) - 1 < (L : Int)
      omega
    · injection h with h
      subst h
      omega

theorem cleanEmotion_idem (L : Nat) (o : Option EmotionRange) :
    cleanEmotion L (cleanEmotion L o) = cleanEmotion L o := by
  cases he : cleanEmotion L o with
  | none => rfl
  | some r =>
    have hlt := cleanEmotion_max_lt he
    simp only [cleanEmotion]
    rw [if_neg (by omega)]

theorem cleanCharacter_reclean (L : Nat) (ids : List String) (st : CharacterState) :
    cleanCharacter L [] (cleanCharacter L ids st).1 = ((cleanCharacter L ids st).1, 0) := by
  simp [cleanCharacter, cleanKnownEvents_nil, cleanEmotion_idem]

theorem resetCursor_lt (L : Nat) : resetCursor L < (L : Int) := by
  unfold resetCursor
  split_ifs with h <;> omega

theorem cleanLastUpdated_lt {L : Nat} {o : Option Int} {n : Int}
    (h : (cleanLastUpdated L o).1 = some n) : n < (L : Int) := by
  cases o with
  | none => simp [cleanLastUpdated] at h
  | some k =>
    simp only [cleanLastUpdated] at h
    split_ifs at h with h1
    · simp only [Option.some.injEq] at h
      subst h
      exact resetCursor_lt L
    · simp only [Option.some.injEq] at h
      subst h
      omega

theorem cleanLastUpdated_idem (L : Nat) (o : Option Int) :
    cleanLastUpdated L (cleanLastUpdated L o).1 = ((cleanLastUpdated L o).1, 0) := by
  cases hf : (cleanLastUpdated L o).1 with
  | none => rfl
  | some n =>
    have hlt := cleanLastUpdated_lt hf
    simp only [cleanLastUpdated]
    rw [if_neg (by omega)]

theorem cleanHistory_idem (L : Nat) (o : Option (List HistoryEntry)) :
    cleanHistory L (cleanHistory L o) = cleanHistory L o := by
  cases o with
  | none => rfl
  | some hs =>
    simp only [cleanHistory, Option.some.injEq]
    exact List.filter_eq_self.mpr (fun a ha => (List.mem_filter.mp ha).2)

theorem cleanRelationship_idem (L : Nat) (r : Relationship) :
    cleanRelationship L (cleanRelationship L r).1 = ((cleanRelationship L r).1, 0) := by
  simp [cleanRelationship, cleanLastUpdated_idem, cleanHistory_idem]

theorem cleanLastProcessed_lt {L : Nat} {o : Option Int} {n : Int}
    (h : cleanLastProcessed L o = some n) : n < (L : Int) := by
  cases o with
  | none => simp [cleanLastProcessed] at h
  | some k =>
    simp only [cleanLastProcessed] at h
    split_ifs at h with h1
    · simp only [Option.some.injEq] at h
      subst h
      exact resetCursor_lt L
    · simp only [Option.some.injEq] at h
      subst h
      omega

theorem cleanLastProcessed_idem (L : Nat) (o : Option Int) :
    cleanLastProcessed L (cleanLastProcessed L o) = cleanLastProcessed L o := by
  cases hf : cleanLastProcessed L o with
  | none => rfl
  | some n =>
    have hlt := cleanLastProcessed_lt hf
    simp only [cleanLastProcessed]
    rw [if_neg (by omega)]

/-! ## Claim C7: short-circuit -/

/-- C7: if the transcript length is 0 or the store has no memories, the pass
returns the zero report and the whole store (memories, characters,
relationships, cursor) is completely unchanged. -/
theorem claim7_short_circuit (L : Nat) (S : Store) (h : L = 0 ∨ S.memories = []) :
    pruneMemoriesForBranch L S
      = (S, { prunedMemories := 0, prunedCharacterEvents := 0, prunedRelationships := 0 }) :=
  prune_shortcircuit h

def claim7store : Store :=
  { memories := [⟨"a", "sum", some [0, 7]⟩],
    characters := [("Alice", ⟨some ["a"], some ⟨2, 9⟩⟩)],
    relationships := [("Alice-Bob", ⟨some 9, some [⟨some 9, "x"⟩]⟩)],
    lastProcessed := some 9 }

/-- Witness for C7 at transcript length 0 and a non-empty store. -/
theorem claim7_short_circuit_witness :
    ((0 : Nat) = 0 ∨ claim7store.memories = []) ∧
    pruneMemoriesForBranch 0 claim7store
      = (claim7store,
         { prunedMemories := 0, prunedCharacterEvents := 0, prunedRelationships := 0 }) :=
  ⟨Or.inl rfl, claim7_short_circuit 0 claim7store (Or.inl rfl)⟩

/-! ## Claim C1: the memory scan -/

/-- C1: with at least one memory and transcript length `L ≥ 1`, the pass prunes
exactly the memories having some `message_ids` entry `≥ L` (one bad id
invalidates the whole memory), the survivors are the filter of the original
sequence (relative order preserved), and `prunedMemories` is the number of
invalid memories. -/
theorem claim1_memory_scan (L : Nat) (S : Store) (hL : 1 ≤ L) (hS : S.memories ≠ []) :
    (pruneMemoriesForBranch L S).1.memories
        = S.memories.filter
            (fun m => !((m.message_ids.getD []).any (fun id => decide ((L : Int) ≤ id)))) ∧
    (pruneMemoriesForBranch L S).2.prunedMemories
        = (S.memories.filter
            (fun m => (m.message_ids.getD []).any (fun id => decide ((L : Int) ≤ id)))).length := by
  have hL0 : L ≠ 0 := by omega
  rw [prune_main hL0 hS]
  refine ⟨?_, rfl⟩
  rw [pruneCore_memories]
  by_cases h : 0 < (S.memories.filter (memoryInvalid L)).length
  · rw [if_pos h]
    exact rfl
  · rw [if_neg h]
    have h0 : S.memories.filter (memoryInvalid L) = [] :=
      List.length_eq_zero.mp (Nat.eq_zero_of_not_pos h)
    refine (List.filter_eq_self.mpr (fun m hm => ?_)).symm
    have hv := List.filter_eq_nil_iff.mp h0 m hm
    show (!(memoryInvalid L m)) = true
    cases hmi : memoryInvalid L m with
    | false => rfl
    | true => exact absurd hmi hv

def claim1store : Store :=
  { memories := [⟨"keep", "s", some [0, 4]⟩, ⟨"drop", "s", some [0, 5]⟩],
    characters := [],
    relationships := [],
    lastProcessed := none }

/-- Witness for C1 at `L = 5`: the memory with `message_ids = [0, 5]` is pruned
entirely even though `0` is in range. -/
theorem claim1_memory_scan_witness :
    ((1 ≤ 5 ∧ claim1store.memories ≠ []) ∧
     ((pruneMemoriesForBranch 5 claim1store).1.memories
        = claim1store.memories.filter
            (fun m => !((m.message_ids.getD []).any (fun id => decide (((5 : Nat) : Int) ≤ id)))) ∧
      (pruneMemoriesForBranch 5 claim1store).2.prunedMemories
        = (claim1store.memories.filter
            (fun m => (m.message_ids.getD []).any (fun id => decide (((5 : Nat) : Int) ≤ id)))).length)) ∧
    (pruneMemoriesForBranch 5 claim1store).1.memories = [⟨"keep", "s", some [0, 4]⟩] :=
  ⟨⟨⟨by decide, by decide⟩, claim1_memory_scan 5 claim1store (by decide) (by decide)⟩, by decide⟩

/-! ## Claim C10: memories without message ids are never pruned -/

/-- C10: a memory whose `message_ids` field is absent or empty is never invalid,
stays in the store for every transcript length `L ≥ 1`, and the pruned count
only counts invalid memories, so it contributes nothing to it. -/
theorem claim10_keep_memory_without_ids (L : Nat) (S : Store) (m : Memory) (hL : 1 ≤ L)
    (hm : m ∈ S.memories) (hids : m.message_ids = none ∨ m.message_ids = some []) :
    m ∈ (pruneMemoriesForBranch L S).1.memories ∧
    memoryInvalid L m = false ∧
    (pruneMemoriesForBranch L S).2.prunedMemories
      = (S.memories.filter (memoryInvalid L)).length := by
  have hS : S.memories ≠ [] := by
    intro h
    rw [h] at hm
    exact absurd hm (List.not_mem_nil m)
  have hL0 : L ≠ 0 := by omega
  rw [prune_main hL0 hS]
  have hval : memoryInvalid L m = false := by
    rcases hids with h | h <;> simp [memoryInvalid, h]
  refine ⟨?_, hval, rfl⟩
  rw [pruneCore_memories]
  by_cases h : 0 < (S.memories.filter (memoryInvalid L)).length
  · rw [if_pos h]
    exact List.mem_filter.mpr ⟨hm, by simp [hval]⟩
  · rw [if_neg h]
    exact hm

def claim10store : Store :=
  { memories := [⟨"noids", "s", none⟩, ⟨"empty", "s", some []⟩, ⟨"bad", "s", some [9]⟩],
    characters := [],
    relationships := [],
    lastProcessed := none }

/-- Witness for C10 at `L = 2` on a store whose first memory has no
`message_ids` field at all. -/
theorem claim10_keep_memory_without_ids_witness :
    ((1 ≤ 2 ∧ (⟨"noids", "s", none⟩ : Memory) ∈ claim10store.memories ∧
      ((⟨"noids", "s", none⟩ : Memory).message_ids = none ∨
       (⟨"noids", "s", none⟩ : Memory).message_ids = some [])) ∧
     ((⟨"noids", "s", none⟩ : Memory) ∈ (pruneMemoriesForBranch 2 claim10store).1.memories ∧
      memoryInvalid 2 ⟨"noids", "s", none⟩ = false ∧
      (pruneMemoriesForBranch 2 claim10store).2.prunedMemories
        = (claim10store.memories.filter (memoryInvalid 2)).length)) :=
  ⟨⟨by decide, by decide, Or.inl rfl⟩,
   claim10_keep_memory_without_ids 2 claim10store ⟨"noids", "s", none⟩
     (by decide) (by decide) (Or.inl rfl)⟩

/-! ## Claim C3: the cursor clamp (corrected) -/

def claim3store : Store :=
  { memories := [⟨"a", "s", some [0]⟩],
    characters := [],
    relationships := [],
    lastProcessed := some 10 }

/-- Counterexample to C3: with `lastProcessed = 10` and transcript length 0 the
pass short-circuits before the cursor clamp, so the cursor stays at 10 and is
never reset to -1 as the claim states. -/
theorem claim3_counterexample :
    (pruneMemoriesForBranch 0 claim3store).1.lastProcessed = some 10 ∧
    ¬ ((pruneMemoriesForBranch 0 claim3store).1.lastProcessed = some (-1)) := by
  decide

/-- C3 (amended): on a store with at least one memory and a numeric cursor, the
cursor is reset to `L - 1` when `L ≥ 1` and the cursor is `≥ L` (so 10 with
`L = 4` becomes 3), kept when `L ≥ 1` and the cursor is `< L`, and left
untouched when `L = 0` because the pass short-circuits (the -1 reset branch of
the source is unreachable). -/
theorem claim3_cursor_clamp (L : Nat) (S : Store) (n : Int) (hS : S.memories ≠ [])
    (hn : S.lastProcessed = some n) :
    (1 ≤ L → (L : Int) ≤ n →
      (pruneMemoriesForBranch L S).1.lastProcessed = some ((L : Int) - 1)) ∧
    (1 ≤ L → n < (L : Int) →
      (pruneMemoriesForBranch L S).1.lastProcessed = some n) ∧
    (L = 0 → (pruneMemoriesForBranch L S).1.lastProcessed = some n) := by
  refine ⟨?_, ?_, ?_⟩
  · intro hL hge
    rw [prune_main (by omega) hS, pruneCore_lastProcessed, hn]
    simp only [cleanLastProcessed]
    rw [if_pos hge]
    have hrc : resetCursor L = (L : Int) - 1 := by
      unfold resetCursor
      rw [if_pos (by omega)]
    rw [hrc]
  · intro hL hlt
    rw [prune_main (by omega) hS, pruneCore_lastProcessed, hn]
    simp only [cleanLastProcessed]
    rw [if_neg (by omega)]
  · intro h0
    rw [prune_shortcircuit (Or.inl h0)]
    exact hn

/-- Witness for C3 (amended) at `lastProcessed = 10`, `L = 4`: the cursor
becomes 3. -/
theorem claim3_cursor_clamp_witness :
    ((claim3store.memories ≠ [] ∧ claim3store.lastProcessed = some 10) ∧
     ((1 ≤ 4 → ((4 : Nat) : Int) ≤ 10 →
        (pruneMemoriesForBranch 4 claim3store).1.lastProcessed = some (((4 : Nat) : Int) - 1)) ∧
      (1 ≤ 4 → (10 : Int) < ((4 : Nat) : Int) →
        (pruneMemoriesForBranch 4 claim3store).1.lastProcessed = some 10) ∧
      ((4 : Nat) = 0 → (pruneMemoriesForBranch 4 claim3store).1.lastProcessed = some 10))) ∧
    (pruneMemoriesForBranch 4 claim3store).1.lastProcessed = some 3 :=
  ⟨⟨⟨by decide, rfl⟩, claim3_cursor_clamp 4 claim3store 10 (by decide) rfl⟩, by decide⟩

/-! ## Claim C2: idempotence -/

/-- C2: running the pass a second time with the same transcript length returns
the exact store produced by the first run together with the zero report: no
further changes ever happen. -/
theorem claim2_idempotent (L : Nat) (S : Store) :
    pruneMemoriesForBranch L (pruneMemoriesForBranch L S).1
      = ((pruneMemoriesForBranch L S).1,
         { prunedMemories := 0, prunedCharacterEvents := 0, prunedRelationships := 0 }) := by
  by_cases h : L = 0 ∨ S.memories = []
  · rw [prune_shortcircuit h]
    exact prune_shortcircuit h
  · push_neg at h
    obtain ⟨hL0, hS⟩ := h
    rw [prune_main hL0 hS]
    by_cases h2 : (pruneCore L S).1.memories = []
    · exact prune_shortcircuit (Or.inr h2)
    · rw [prune_main hL0 h2]
      set T := (pruneCore L S).1 with hT
      have hvalid : ∀ m ∈ T.memories, memoryInvalid L m = false :=
        fun m hm => mem_pruneCore_valid hm
      have hfil : T.memories.filter (memoryInvalid L) = [] :=
        List.filter_eq_nil_iff.mpr (fun m hm => by simp [hvalid m hm])
      have hids : prunedIdsOf L T.memories = [] := by
        rw [prunedIdsOf, hfil]
        rfl
      have hchar : ∀ p ∈ T.characters, cleanCharacter L [] p.2 = (p.2, 0) := by
        intro p hp
        rw [hT, pruneCore_characters] at hp
        obtain ⟨q, hq, rfl⟩ := List.mem_map.mp hp
        exact cleanCharacter_reclean L _ q.2
      have hrel : ∀ p ∈ T.relationships, cleanRelationship L p.2 = (p.2, 0) := by
        intro p hp
        rw [hT, pruneCore_relationships] at hp
        obtain ⟨q, hq, rfl⟩ := List.mem_map.mp hp
        exact cleanRelationship_idem L q.2
      have hlp : cleanLastProcessed L T.lastProcessed = T.lastProcessed := by
        rw [hT, pruneCore_lastProcessed]
        exact cleanLastProcessed_idem L S.lastProcessed
      have hmem2 : (pruneCore L T).1.memories = T.memories := by
        rw [pruneCore_memories, hfil]
        simp
      have hchar2 : (pruneCore L T).1.characters = T.characters := by
        rw [pruneCore_characters, hids]
        conv_rhs => rw [← List.map_id T.characters]
        refine List.map_congr_left (fun p hp => ?_)
        simp [hchar p hp]
      have hrel2 : (pruneCore L T).1.relationships = T.relationships := by
        rw [pruneCore_relationships]
        conv_rhs => rw [← List.map_id T.relationships]
        refine List.map_congr_left (fun p hp => ?_)
        simp [hrel p hp]
      have hstore : (pruneCore L T).1 = T := by
        refine Store.ext hmem2 hchar2 hrel2 ?_
        rw [pruneCore_lastProcessed]
        exact hlp
      have hrep : (pruneCore L T).2
          = ({ prunedMemories := 0, prunedCharacterEvents := 0,
               prunedRelationships := 0 } : PruneReport) := by
        have e1 : (pruneCore L T).2.prunedMemories = 0 := by
          rw [pruneCore_prunedMemories, hfil]
          rfl
        have e2 : (pruneCore L T).2.prunedCharacterEvents = 0 := by
          rw [pruneCore_prunedCharacterEvents, hids]
          refine natSum_eq_zero.mpr (fun x hx => ?_)
          obtain ⟨p, hp, rfl⟩ := List.mem_map.mp hx
          rw [hchar p hp]
        have e3 : (pruneCore L T).2.prunedRelationships = 0 := by
          rw [pruneCore_prunedRelationships]
          refine natSum_eq_zero.mpr (fun x hx => ?_)
          obtain ⟨p, hp, rfl⟩ := List.mem_map.mp hx
          rw [hrel p hp]
        cases hpr : (pruneCore L T).2 with
        | mk a b c =>
            rw [hpr] at e1 e2 e3
            simp only at e1 e2 e3
            rw [e1, e2, e3]
      rw [Prod.ext_iff]
      exact ⟨hstore, hrep⟩

/-! ## Claim C4: what a zero report does and does not guarantee (corrected) -/

theorem cleanLastUpdated_fst_of_count_zero {L : Nat} {o : Option Int}
    (h : (cleanLastUpdated L o).2 = 0) : (cleanLastUpdated L o).1 = o := by
  cases o with
  | none => rfl
  | some n =>
    by_cases h1 : (L : Int) ≤ n
    · simp only [cleanLastUpdated, if_pos h1] at h
      exact absurd h Nat.one_ne_zero
    · simp only [cleanLastUpdated, if_neg h1]

theorem cleanKnownEvents_fst_of_count_zero {ids : List String} {o : Option (List String)}
    (h : (cleanKnownEvents ids o).2 = 0) : (cleanKnownEvents ids o).1 = o := by
  cases o with
  | none => rfl
  | some evs =>
    simp only [cleanKnownEvents] at h ⊢
    have hle := List.length_filter_le (fun e => decide (e ∉ ids)) evs
    have hlen : (evs.filter (fun e => decide (e ∉ ids))).length = evs.length := by omega
    rw [Option.some.injEq]
    exact (List.filter_sublist evs).eq_of_length hlen

def claim4store : Store :=
  { memories := [⟨"a", "s", some [0]⟩],
    characters := [],
    relationships := [("r", ⟨none, some [⟨some 5, "x"⟩]⟩)],
    lastProcessed := none }

/-- Counterexample to C4: at transcript length 1 this store gets the zero
report, yet the store is mutated (the history entry with `message_id = 5` is
dropped without any counter being incremented). -/
theorem claim4_counterexample :
    (pruneMemoriesForBranch 1 claim4store).2
      = { prunedMemories := 0, prunedCharacterEvents := 0, prunedRelationships := 0 } ∧
    ¬ ((pruneMemoriesForBranch 1 claim4store).1 = claim4store) := by
  decide

/-- C4 (amended): a zero report guarantees that the memory collection, every
character's `known_events` and every relationship's `last_updated_message_id`
(with names and order) are unchanged, but not that the whole store round-trips
unchanged: history filtering, emotion clamping and the `lastProcessed` reset
are not reflected in the report. -/
theorem claim4_zero_report_frame (L : Nat) (S : Store)
    (h : (pruneMemoriesForBranch L S).2
      = { prunedMemories := 0, prunedCharacterEvents := 0, prunedRelationships := 0 }) :
    (pruneMemoriesForBranch L S).1.memories = S.memories ∧
    (pruneMemoriesForBranch L S).1.characters.map (fun p => (p.1, p.2.known_events))
      = S.characters.map (fun p => (p.1, p.2.known_events)) ∧
    (pruneMemoriesForBranch L S).1.relationships.map
        (fun p => (p.1, p.2.last_updated_message_id))
      = S.relationships.map (fun p => (p.1, p.2.last_updated_message_id)) := by
  by_cases hsc : L = 0 ∨ S.memories = []
  · rw [prune_shortcircuit hsc]
    exact ⟨rfl, rfl, rfl⟩
  · push_neg at hsc
    obtain ⟨hL0, hS⟩ := hsc
    rw [prune_main hL0 hS] at h ⊢
    have hm0 : (S.memories.filter (memoryInvalid L)).length = 0 := by
      rw [← pruneCore_prunedMemories L S, h]
    have hev : (S.characters.map
        (fun p => (cleanCharacter L (prunedIdsOf L S.memories) p.2).2)).sum = 0 := by
      rw [← pruneCore_prunedCharacterEvents L S, h]
    have hev2 := natSum_eq_zero.mp hev
    have hru : (S.relationships.map (fun p => (cleanRelationship L p.2).2)).sum = 0 := by
      rw [← pruneCore_prunedRelationships L S, h]
    have hru2 := natSum_eq_zero.mp hru
    refine ⟨?_, ?_, ?_⟩
    · rw [pruneCore_memories, if_neg (by omega)]
    · rw [pruneCore_characters, List.map_map]
      refine List.map_congr_left (fun p hp => ?_)
      simp only [Function.comp_apply]
      have hz : (cleanKnownEvents (prunedIdsOf L S.memories) p.2.known_events).2 = 0 :=
        hev2 _ (List.mem_map.mpr ⟨p, hp, rfl⟩)
      show (p.1, (cleanKnownEvents (prunedIdsOf L S.memories) p.2.known_events).1)
          = (p.1, p.2.known_events)
      rw [cleanKnownEvents_fst_of_count_zero hz]
    · rw [pruneCore_relationships, List.map_map]
      refine List.map_congr_left (fun p hp => ?_)
      simp only [Function.comp_apply]
      have hz : (cleanLastUpdated L p.2.last_updated_message_id).2 = 0 :=
        hru2 _ (List.mem_map.mpr ⟨p, hp, rfl⟩)
      show (p.1, (cleanLastUpdated L p.2.last_updated_message_id).1)
          = (p.1, p.2.last_updated_message_id)
      rw [cleanLastUpdated_fst_of_count_zero hz]

/-- Witness for C4 (amended): the same store as the counterexample receives the
zero report, so its memories, known events and relationship cursors are
unchanged. -/
theorem claim4_zero_report_frame_witness :
    ((pruneMemoriesForBranch 1 claim4store).2
      = { prunedMemories := 0, prunedCharacterEvents := 0, prunedRelationships := 0 }) ∧
    ((pruneMemoriesForBranch 1 claim4store).1.memories = claim4store.memories ∧
     (pruneMemoriesForBranch 1 claim4store).1.characters.map (fun p => (p.1, p.2.known_events))
       = claim4store.characters.map (fun p => (p.1, p.2.known_events)) ∧
     (pruneMemoriesForBranch 1 claim4store).1.relationships.map
         (fun p => (p.1, p.2.last_updated_message_id))
       = claim4store.relationships.map (fun p => (p.1, p.2.last_updated_message_id))) :=
  ⟨by decide, claim4_zero_report_frame 1 claim4store (by decide)⟩

/-! ## Claim C5: no dangling known_events references (corrected) -/

def claim5store : Store :=
  { memories := [⟨"a", "s", some [0]⟩],
    characters := [("c", ⟨some ["zzz"], none⟩)],
    relationships := [],
    lastProcessed := none }

/-- Counterexample to C5: the id "zzz" never referenced any memory; the pass
keeps it in `known_events` (it only filters ids of memories it just pruned), so
a dangling reference remains after reconciliation. -/
theorem claim5_counterexample :
    (pruneMemoriesForBranch 1 claim5store).1.characters
      = [("c", ⟨some ["zzz"], none⟩)] ∧
    ∀ m ∈ (pruneMemoriesForBranch 1 claim5store).1.memories, ¬ (m.id = "zzz") := by
  decide

/-- C5 (amended): provided every `known_events` id referenced an existing memory
before the call, after the pass every character's `known_events` references only
ids present in the surviving memory collection. -/
theorem claim5_no_dangling (L : Nat) (S : Store) (hL : 1 ≤ L) (hS : S.memories ≠ [])
    (hpre : ∀ p ∈ S.characters, ∀ e ∈ p.2.known_events.getD [],
      ∃ m ∈ S.memories, m.id = e) :
    ∀ p ∈ (pruneMemoriesForBranch L S).1.characters, ∀ e ∈ p.2.known_events.getD [],
      ∃ m ∈ (pruneMemoriesForBranch L S).1.memories, m.id = e := by
  rw [prune_main (by omega) hS]
  intro p hp e he
  rw [pruneCore_characters] at hp
  obtain ⟨q, hq, rfl⟩ := List.mem_map.mp hp
  rcases hke : q.2.known_events with _ | evs
  · simp [cleanCharacter, cleanKnownEvents, hke] at he
  · have he2 : e ∈ evs.filter (fun e => decide (e ∉ prunedIdsOf L S.memories)) := by
      simpa [cleanCharacter, cleanKnownEvents, hke] using he
    obtain ⟨hev, hnotin⟩ := List.mem_filter.mp he2
    have hnotin2 : e ∉ prunedIdsOf L S.memories := by simpa using hnotin
    have hpq := hpre q hq e (by rw [hke]; exact hev)
    obtain ⟨m, hmS, hmid⟩ := hpq
    have hmv : memoryInvalid L m = false := by
      by_contra hcon
      have hmv2 : memoryInvalid L m = true := by
        cases hmi : memoryInvalid L m with
        | false => exact absurd hmi hcon
        | true => rfl
      have : m.id ∈ prunedIdsOf L S.memories :=
        List.mem_map.mpr ⟨m, List.mem_filter.mpr ⟨hmS, hmv2⟩, rfl⟩
      rw [hmid] at this
      exact hnotin2 this
    refine ⟨m, ?_, hmid⟩
    rw [pruneCore_memories]
    by_cases hpos : 0 < (S.memories.filter (memoryInvalid L)).length
    · rw [if_pos hpos]
      exact List.mem_filter.mpr ⟨hmS, by simp [hmv]⟩
    · rw [if_neg hpos]
      exact hmS

def claim5wstore : Store :=
  { memories := [⟨"a", "s", some [0]⟩, ⟨"b", "s", some [5]⟩],
    characters := [("c", ⟨some ["a", "b"], none⟩)],
    relationships := [],
    lastProcessed := none }

/-- Witness for C5 (amended) at `L = 1`: memory "b" is pruned, "b" disappears
from `known_events`, and the remaining reference "a" points to a surviving
memory. -/
theorem claim5_no_dangling_witness :
    ((1 ≤ 1 ∧ claim5wstore.memories ≠ [] ∧
      (∀ p ∈ claim5wstore.characters, ∀ e ∈ p.2.known_events.getD [],
        ∃ m ∈ claim5wstore.memories, m.id = e)) ∧
     (∀ p ∈ (pruneMemoriesForBranch 1 claim5wstore).1.characters,
        ∀ e ∈ p.2.known_events.getD [],
        ∃ m ∈ (pruneMemoriesForBranch 1 claim5wstore).1.memories, m.id = e)) ∧
    (pruneMemoriesForBranch 1 claim5wstore).1.characters
      = [("c", ⟨some ["a"], none⟩)] :=
  ⟨⟨⟨by decide, by decide, by decide⟩,
    claim5_no_dangling 1 claim5wstore (by decide) (by decide) (by decide)⟩, by decide⟩

/-! ## Claim C6: the emotion range two-tier rule -/

/-- C6: for every character (names and order preserved), when
`emotion_from_messages` is present with `max ≥ L` the whole field is deleted if
`min ≥ L` and otherwise only `max` is clamped to `L - 1` with `min` unchanged;
a range with `max < L` is untouched. -/
theorem claim6_emotion_two_tier (L : Nat) (S : Store) (hL : 1 ≤ L) (hS : S.memories ≠ []) :
    (pruneMemoriesForBranch L S).1.characters.map (fun p => (p.1, p.2.emotion_from_messages))
      = S.characters.map (fun p => (p.1,
          match p.2.emotion_from_messages with
          | none => none
          | some r =>
              if (L : Int) ≤ r.max then
                if (L : Int) ≤ r.min then none
                else some ⟨r.min, (L : Int) - 1⟩
              else some r)) := by
  rw [prune_main (by omega) hS, pruneCore_characters, List.map_map]
  refine List.map_congr_left (fun p hp => ?_)
  simp only [Function.comp_apply]
  show (p.1, cleanEmotion L p.2.emotion_from_messages) = _
  congr 1

def claim6store : Store :=
  { memories := [⟨"a", "s", some [0]⟩],
    characters := [("p", ⟨none, some ⟨3, 7⟩⟩), ("q", ⟨none, some ⟨6, 7⟩⟩)],
    relationships := [],
    lastProcessed := none }

/-- Witness for C6 at `L = 5`: `{min: 3, max: 7}` is clamped to `{min: 3, max: 4}`
and `{min: 6, max: 7}` is deleted entirely. -/
theorem claim6_emotion_two_tier_witness :
    ((1 ≤ 5 ∧ claim6store.memories ≠ []) ∧
     (pruneMemoriesForBranch 5 claim6store).1.characters.map
         (fun p => (p.1, p.2.emotion_from_messages))
       = claim6store.characters.map (fun p => (p.1,
           match p.2.emotion_from_messages with
           | none => none
           | some r =>
               if ((5 : Nat) : Int) ≤ r.max then
                 if ((5 : Nat) : Int) ≤ r.min then none
                 else some ⟨r.min, ((5 : Nat) : Int) - 1⟩
               else some r))) ∧
    (pruneMemoriesForBranch 5 claim6store).1.characters.map
        (fun p => (p.1, p.2.emotion_from_messages))
      = [("p", some ⟨3, 4⟩), ("q", none)] :=
  ⟨⟨⟨by decide, by decide⟩, claim6_emotion_two_tier 5 claim6store (by decide) (by decide)⟩,
   by decide⟩

/-! ## Claim C8: history filtering and the relationship counter -/

theorem sum_map_ite {A : Type} (f : A → Nat) (g : A → Bool)
    (hfg : ∀ a, f a = if g a then 1 else 0) (l : List A) :
    (l.map f).sum = (l.filter g).length := by
  induction l with
  | nil => rfl
  | cons a t ih =>
    rw [List.map_cons, List.sum_cons, List.filter_cons, hfg a, ih]
    cases hg : g a
    · simp [hg]
    · simp [hg, Nat.add_comm]

theorem relCount_eq_filter_length (L : Nat) (l : List (String × Relationship)) :
    (l.map (fun p => (cleanRelationship L p.2).2)).sum
      = (l.filter (fun p =>
          match p.2.last_updated_message_id with
          | none => false
          | some n => decide ((L : Int) ≤ n))).length := by
  refine sum_map_ite _ _ (fun a => ?_) l
  rcases ha : a.2.last_updated_message_id with _ | n
  · simp [cleanRelationship, cleanLastUpdated, ha]
  · by_cases hn : (L : Int) ≤ n <;>
      simp [cleanRelationship, cleanLastUpdated, ha, hn]

/-- C8: each relationship's history drops exactly the entries whose
`message_id` is a number `≥ L` (strict `<` keeps index `L - 1`), entries with
an absent or non-numeric `message_id` are always kept, and history drops never
increment `prunedRelationships`, which equals the number of relationships whose
`last_updated_message_id` was numeric and `≥ L` (hence reset). -/
theorem claim8_history_filter (L : Nat) (S : Store) (hL : 1 ≤ L) (hS : S.memories ≠ []) :
    (pruneMemoriesForBranch L S).1.relationships.map (fun p => (p.1, p.2.history))
      = S.relationships.map (fun p => (p.1,
          match p.2.history with
          | none => none
          | some hs => some (hs.filter (fun h =>
              match h.message_id with
              | none => true
              | some mid => decide (mid < (L : Int)))))) ∧
    (pruneMemoriesForBranch L S).2.prunedRelationships
      = (S.relationships.filter (fun p =>
          match p.2.last_updated_message_id with
          | none => false
          | some n => decide ((L : Int) ≤ n))).length := by
  rw [prune_main (by omega) hS]
  constructor
  · rw [pruneCore_relationships, List.map_map]
    refine List.map_congr_left (fun p hp => ?_)
    simp only [Function.comp_apply]
    show (p.1, cleanHistory L p.2.history) = _
    congr 1
  · rw [pruneCore_prunedRelationships]
    exact relCount_eq_filter_length L S.relationships

def claim8store : Store :=
  { memories := [⟨"a", "s", some [0]⟩],
    characters := [],
    relationships :=
      [("AB", ⟨some 7, some [⟨some 4, "keep"⟩, ⟨some 5, "drop"⟩, ⟨none, "nonum"⟩]⟩),
       ("CD", ⟨some 2, some []⟩)],
    lastProcessed := none }

/-- Witness for C8 at `L = 5`: the entry at index 4 (= L - 1) is kept, the one
at 5 is dropped, the entry without `message_id` is kept, and only the
relationship whose cursor was `≥ 5` is counted. -/
theorem claim8_history_filter_witness :
    ((1 ≤ 5 ∧ claim8store.memories ≠ []) ∧
     ((pruneMemoriesForBranch 5 claim8store).1.relationships.map (fun p => (p.1, p.2.history))
        = claim8store.relationships.map (fun p => (p.1,
            match p.2.history with
            | none => none
            | some hs => some (hs.filter (fun h =>
                match h.message_id with
                | none => true
                | some mid => decide (mid < ((5 : Nat) : Int)))))) ∧
      (pruneMemoriesForBranch 5 claim8store).2.prunedRelationships
        = (claim8store.relationships.filter (fun p =>
            match p.2.last_updated_message_id with
            | none => false
            | some n => decide (((5 : Nat) : Int) ≤ n))).length)) ∧
    ((pruneMemoriesForBranch 5 claim8store).1.relationships.map (fun p => (p.1, p.2.history))
        = [("AB", some [⟨some 4, "keep"⟩, ⟨none, "nonum"⟩]), ("CD", some [])] ∧
     (pruneMemoriesForBranch 5 claim8store).2.prunedRelationships = 1) :=
  ⟨⟨⟨by decide, by decide⟩, claim8_history_filter 5 claim8store (by decide) (by decide)⟩,
   ⟨by decide, by decide⟩⟩

/-! ## Claim C9: every remaining numeric message index is in range -/

/-- C9: after a pass with `L ≥ 1` on a store with at least one memory, every
numeric message-index reference left in the store is `< L`: all `message_ids`
of surviving memories, the `max` of every remaining emotion range, every
numeric `last_updated_message_id`, every numeric `message_id` of remaining
history entries, and the cursor when numeric. -/
theorem claim9_indices_in_range (L : Nat) (S : Store) (hL : 1 ≤ L) (hS : S.memories ≠ []) :
    (∀ m ∈ (pruneMemoriesForBranch L S).1.memories,
       ∀ id ∈ m.message_ids.getD [], id < (L : Int)) ∧
    (∀ p ∈ (pruneMemoriesForBranch L S).1.characters,
       ∀ r, p.2.emotion_from_messages = some r → r.max < (L : Int)) ∧
    (∀ p ∈ (pruneMemoriesForBranch L S).1.relationships,
       (∀ n, p.2.last_updated_message_id = some n → n < (L : Int)) ∧
       (∀ h ∈ p.2.history.getD [], ∀ mid, h.message_id = some mid → mid < (L : Int))) ∧
    (∀ n, (pruneMemoriesForBranch L S).1.lastProcessed = some n → n < (L : Int)) := by
  rw [prune_main (by omega) hS]
  refine ⟨?_, ?_, ?_, ?_⟩
  · intro m hm id hid
    have hv := mem_pruneCore_valid hm
    simp only [memoryInvalid, List.any_eq_false, decide_eq_true_eq] at hv
    have := hv id hid
    omega
  · intro p hp r hr
    rw [pruneCore_characters] at hp
    obtain ⟨q, hq, rfl⟩ := List.mem_map.mp hp
    exact cleanEmotion_max_lt hr
  · intro p hp
    rw [pruneCore_relationships] at hp
    obtain ⟨q, hq, rfl⟩ := List.mem_map.mp hp
    constructor
    · intro n hn
      exact cleanLastUpdated_lt hn
    · intro h hh mid hmid
      rcases hqh : q.2.history with _ | hs
      · simp [cleanRelationship, cleanHistory, hqh] at hh
      · have hh2 : h ∈ hs.filter (keepHistoryEntry L) := by
          simpa [cleanRelationship, cleanHistory, hqh] using hh
        have hkeep := (List.mem_filter.mp hh2).2
        rw [keepHistoryEntry, hmid] at hkeep
        simpa using hkeep
  · intro n hn
    rw [pruneCore_lastProcessed] at hn
    exact cleanLastProcessed_lt hn

def claim9store : Store :=
  { memories := [⟨"a", "s", some [0, 1]⟩, ⟨"b", "s", some [0, 5]⟩],
    characters := [("c", ⟨some ["a", "b"], some ⟨1, 9⟩⟩)],
    relationships := [("r", ⟨some 9, some [⟨some 1, "k"⟩, ⟨some 9, "d"⟩, ⟨none, "n"⟩]⟩)],
    lastProcessed := some 9 }

/-- Witness for C9 at `L = 2` on a store that exercises every kind of
message-index reference. -/
theorem claim9_indices_in_range_witness :
    ((1 ≤ 2 ∧ claim9store.memories ≠ []) ∧
     ((∀ m ∈ (pruneMemoriesForBranch 2 claim9store).1.memories,
         ∀ id ∈ m.message_ids.getD [], id < ((2 : Nat) : Int)) ∧
      (∀ p ∈ (pruneMemoriesForBranch 2 claim9store).1.characters,
         ∀ r, p.2.emotion_from_messages = some r → r.max < ((2 : Nat) : Int)) ∧
      (∀ p ∈ (pruneMemoriesForBranch 2 claim9store).1.relationships,
         (∀ n, p.2.last_updated_message_id = some n → n < ((2 : Nat) : Int)) ∧
         (∀ h ∈ p.2.history.getD [], ∀ mid, h.message_id = some mid →
            mid < ((2 : Nat) : Int))) ∧
      (∀ n, (pruneMemoriesForBranch 2 claim9store).1.lastProcessed = some n →
         n < ((2 : Nat) : Int)))) :=
  ⟨⟨by decide, by decide⟩, claim9_indices_in_range 2 claim9store (by decide) (by decide)⟩
